import Mathlib

/-!
Shallow embedding of the cluster control-plane in `api_server.py`
(classes `NodeManager`, `PodScheduler`, `HealthMonitor` and the Flask
endpoints built on them).

Python dictionaries are modelled as insertion-ordered association lists
(`List (Nat × _)`); `uuid.uuid4()` is modelled by a fresh-id counter
`nextId` threaded through the state; `random.choice` draws from an
`entropy` stream carried in the state; timestamps are naturals.
-/

namespace Cluster

/-- Node status strings `'healthy'` / `'unhealthy'`. -/
inductive Status where
  | healthy
  | unhealthy
deriving DecidableEq, Repr

/-- Scheduling algorithm tokens accepted by `schedule_pod` / the `/pods`
endpoint. -/
inductive Alg where
  | firstFit
  | bestFit
  | worstFit
  | roundRobin
  | randomFit
deriving DecidableEq, Repr

/-- One entry of `NodeManager.nodes`:
`{cpu_cores, available_cores, status, pods, container_id}`.
The `simulate_heartbeats` key is omitted: it only gates the heartbeat
simulation thread and feeds into no state transition modelled here. -/
structure Node where
  cpu_cores : Int
  available_cores : Int
  status : Status
  pods : List Nat
  container_id : String
deriving DecidableEq, Repr

/-- One entry of `PodScheduler.pods`:
`{cpu_requirement, node_id, algorithm}`. -/
structure Pod where
  cpu_requirement : Int
  node_id : Nat
  algorithm : Alg
deriving DecidableEq, Repr

/-- Combined mutable state of `NodeManager` and `PodScheduler`. -/
structure ClusterState where
  nodes : List (Nat × Node)
  node_last_heartbeat : List (Nat × Nat)
  pods : List (Nat × Pod)
  nextId : Nat
  entropy : List Nat
deriving DecidableEq, Repr

/-- Dictionary lookup on an insertion-ordered association list. -/
def lookupA (k : Nat) : List (Nat × α) → Option α
  | [] => none
  | e :: es => if e.1 = k then some e.2 else lookupA k es

/-- Python `k in d`. -/
def containsA (k : Nat) (l : List (Nat × α)) : Bool :=
  (lookupA k l).isSome

/-- Python `d[k] = v`: update in place if the key is present, else append. -/
def insertA (k : Nat) (v : α) : List (Nat × α) → List (Nat × α)
  | [] => [(k, v)]
  | e :: es => if e.1 = k then (k, v) :: es else e :: insertA k v es

/-- In-place update of the value at a key; no-op if the key is absent. -/
def setA (k : Nat) (f : α → α) : List (Nat × α) → List (Nat × α)
  | [] => []
  | e :: es => if e.1 = k then (e.1, f e.2) :: es else e :: setA k f es

/-- Python `del d[k]` (the key is present at most once in reachable
states). -/
def eraseA (k : Nat) : List (Nat × α) → List (Nat × α)
  | [] => []
  | e :: es => if e.1 = k then es else e :: eraseA k es

/-- Container-runtime environment seen by one `add_node` call: the
Docker client is connected and the `containers.run` call succeeds, the
client is `None`, or `containers.run` raises. -/
inductive DockerEnv where
  | available
  | unavailable
  | raises
deriving DecidableEq, Repr

/-- `NodeManager.add_node`: register a healthy node with
`available_cores = cpu_cores`, empty pod list and a fresh heartbeat;
on a Docker failure it falls through to the simulation branch, which
registers the same record with `container_id = 'simulation-mode'`.
Returns `(node_id, success, state)`. -/
def add_node (env : DockerEnv) (cpu_cores : Int) (now : Nat)
    (s : ClusterState) : Nat × Bool × ClusterState :=
  let node_id := s.nextId
  let cid : String :=
    match env with
    | .available => "container"
    | .unavailable => "simulation-mode"
    | .raises => "simulation-mode"
  (node_id, true,
    { s with
        nodes := insertA node_id
          ⟨cpu_cores, cpu_cores, .healthy, [], cid⟩ s.nodes,
        node_last_heartbeat := insertA node_id now s.node_last_heartbeat,
        nextId := s.nextId + 1 })

/-- `NodeManager.update_node_heartbeat`: refresh the heartbeat timestamp
and set the status back to `'healthy'`. -/
def update_node_heartbeat (node_id : Nat) (now : Nat)
    (s : ClusterState) : Bool × ClusterState :=
  if containsA node_id s.nodes then
    (true,
      { s with
          node_last_heartbeat := insertA node_id now s.node_last_heartbeat,
          nodes := setA node_id (fun n => { n with status := .healthy }) s.nodes })
  else (false, s)

/-- `NodeManager.mark_node_unhealthy`. -/
def mark_node_unhealthy (node_id : Nat) (s : ClusterState) : Bool × ClusterState :=
  if containsA node_id s.nodes then
    (true, { s with nodes := setA node_id (fun n => { n with status := .unhealthy }) s.nodes })
  else (false, s)

/-- `NodeManager.terminate_node` (same state change as
`mark_node_unhealthy`). -/
def terminate_node (node_id : Nat) (s : ClusterState) : Bool × ClusterState :=
  if containsA node_id s.nodes then
    (true, { s with nodes := setA node_id (fun n => { n with status := .unhealthy }) s.nodes })
  else (false, s)

/-- `NodeManager.get_healthy_nodes`. -/
def get_healthy_nodes (s : ClusterState) : List (Nat × Node) :=
  s.nodes.filter (fun e => decide (e.2.status = .healthy))

/-- The node mutation performed by a successful `add_pod_to_node`:
append the pod id and decrement `available_cores`. -/
def reserve_update (pod_id : Nat) (cpu_requirement : Int) (m : Node) : Node :=
  { m with
      pods := m.pods ++ [pod_id],
      available_cores := m.available_cores - cpu_requirement }

/-- `NodeManager.add_pod_to_node`: existence plus capacity check (the
node's status is not consulted), then append the pod id and decrement
`available_cores`. -/
def add_pod_to_node (node_id pod_id : Nat) (cpu_requirement : Int)
    (s : ClusterState) : Bool × ClusterState :=
  match lookupA node_id s.nodes with
  | some n =>
      if cpu_requirement ≤ n.available_cores then
        (true, { s with nodes := setA node_id (reserve_update pod_id cpu_requirement) s.nodes })
      else (false, s)
  | none => (false, s)

/-- The nodes eligible for a pod: healthy and with
`available_cores >= cpu_requirement` (the filter inside
`schedule_pod`). -/
def eligible_nodes (cpu_requirement : Int) (s : ClusterState) : List (Nat × Node) :=
  (get_healthy_nodes s).filter (fun e => decide (cpu_requirement ≤ e.2.available_cores))

/-- Python `min(keys, key=...)`: first element attaining the minimal
key, scanning left to right. -/
def minByKey (key : Nat × Node → Int) : List (Nat × Node) → Option (Nat × Node)
  | [] => none
  | x :: xs =>
      match minByKey key xs with
      | none => some x
      | some m => some (if key m < key x then m else x)

/-- Python `max(keys, key=...)`: first element attaining the maximal
key. -/
def maxByKey (key : Nat × Node → Int) : List (Nat × Node) → Option (Nat × Node)
  | [] => none
  | x :: xs =>
      match maxByKey key xs with
      | none => some x
      | some m => some (if key x < key m then m else x)

/-- Candidate selection of `schedule_pod` for each algorithm string.
`round-robin` (a stable sort by pod count followed by taking the head)
is the first node with the fewest pods; `random-fit` indexes the
eligible ids by the next entropy value. Returns the chosen node id and
the remaining entropy. -/
def select_node (algorithm : Alg) (eligible : List (Nat × Node))
    (entropy : List Nat) : Option Nat × List Nat :=
  match algorithm with
  | .firstFit => ((eligible.head?).map Prod.fst, entropy)
  | .bestFit => ((minByKey (fun e => e.2.available_cores) eligible).map Prod.fst, entropy)
  | .worstFit => ((maxByKey (fun e => e.2.available_cores) eligible).map Prod.fst, entropy)
  | .roundRobin => ((minByKey (fun e => (e.2.pods.length : Int)) eligible).map Prod.fst, entropy)
  | .randomFit =>
      let ids := eligible.map Prod.fst
      (ids.get? ((entropy.headD 0) % ids.length), entropy.tail)

/-- Result of `PodScheduler.schedule_pod`, mirroring its
`(pod_id, node_id)` / `(None, message)` returns. -/
inductive ScheduleResult where
  | ok (pod_id : Nat) (node_id : Nat)
  | noHealthyNodes
  | insufficientResources
  | failedToSchedule
deriving DecidableEq, Repr

/-- Whether a schedule result is a success. -/
def ScheduleResult.isOk : ScheduleResult → Bool
  | .ok _ _ => true
  | _ => false

/-- `PodScheduler.schedule_pod`: draw a fresh pod id, snapshot healthy
nodes, filter by capacity, select per algorithm, commit through
`add_pod_to_node` and record the pod. -/
def schedule_pod (cpu_requirement : Int) (algorithm : Alg)
    (s : ClusterState) : ScheduleResult × ClusterState :=
  let pod_id := s.nextId
  let healthy := get_healthy_nodes s
  if healthy = [] then (.noHealthyNodes, { s with nextId := s.nextId + 1 })
  else
    let eligible := healthy.filter (fun e => decide (cpu_requirement ≤ e.2.available_cores))
    if eligible = [] then (.insufficientResources, { s with nextId := s.nextId + 1 })
    else
      match select_node algorithm eligible s.entropy with
      | (some nid, ent) =>
          match add_pod_to_node nid pod_id cpu_requirement
              { s with nextId := s.nextId + 1, entropy := ent } with
          | (true, s3) =>
              (.ok pod_id nid,
                { s3 with pods := insertA pod_id ⟨cpu_requirement, nid, algorithm⟩ s3.pods })
          | (false, s3) => (.failedToSchedule, s3)
      | (none, ent) => (.failedToSchedule, { s with nextId := s.nextId + 1, entropy := ent })

/-- `PodScheduler.reschedule_pods_from_node`: snapshot the pods recorded
on the failed node, reschedule each with its stored algorithm, and on
success delete the old pod record (nothing is removed from the failed
node's pod list and no capacity is credited back). -/
def reschedule_pods_from_node (failed_node_id : Nat)
    (s : ClusterState) : Bool × ClusterState :=
  if containsA failed_node_id s.nodes then
    let pods_to_reschedule := s.pods.filter (fun e => decide (e.2.node_id = failed_node_id))
    (true,
      pods_to_reschedule.foldl
        (fun st e =>
          match schedule_pod e.2.cpu_requirement e.2.algorithm st with
          | (.ok _ _, st1) => { st1 with pods := eraseA e.1 st1.pods }
          | (_, st1) => st1)
        s)
  else (false, s)

/-- The body of the recovery loop of `reschedule_pods_from_node`, as a
named function (definitionally equal to the lambda folded there):
reschedule one pod entry; on success delete its old record. -/
def reschedule_step (st : ClusterState) (e : Nat × Pod) : ClusterState :=
  match schedule_pod e.2.cpu_requirement e.2.algorithm st with
  | (.ok _ _, st1) => { st1 with pods := eraseA e.1 st1.pods }
  | (_, st1) => st1

/-- Invariant carried through the recovery loop for a failed node `f`
whose record is `nf`: the failed node's record is untouched, dictionary
keys stay duplicate-free, and every pod id stays below the fresh-id
counter. -/
def RecoveryInv (f : Nat) (nf : Node) (st : ClusterState) : Prop :=
  lookupA f st.nodes = some nf ∧
  (st.nodes.map Prod.fst).Nodup ∧
  (st.pods.map Prod.fst).Nodup ∧
  (∀ e ∈ st.pods, e.1 < st.nextId)

/-- `HealthMonitor.heartbeat_timeout` (seconds). -/
def heartbeat_timeout : Nat := 15

/-- One iteration of `HealthMonitor._monitor_nodes`: for every heartbeat
entry whose age exceeds the timeout, mark the node unhealthy and invoke
rescheduling — the current status is not consulted. -/
def liveness_tick (now : Nat) (s : ClusterState) : ClusterState :=
  s.node_last_heartbeat.foldl
    (fun st e =>
      if heartbeat_timeout < now - e.2 then
        (reschedule_pods_from_node e.1 (mark_node_unhealthy e.1 st).2).2
      else st)
    s

/-- `POST /nodes`: validate `cpu_cores > 0`, then `add_node`; returns
the HTTP status code (`400` invalid, `201` success, `500` on
`success = False`). -/
def add_node_endpoint (env : DockerEnv) (cpu_cores : Int) (now : Nat)
    (s : ClusterState) : Nat × ClusterState :=
  if cpu_cores ≤ 0 then (400, s)
  else
    match add_node env cpu_cores now s with
    | (_, true, s1) => (201, s1)
    | (_, false, s1) => (500, s1)

/-- `POST /pods`: validate `cpu_requirement > 0`, then `schedule_pod`
(`201` success, `500` otherwise). -/
def create_pod_endpoint (cpu_requirement : Int) (algorithm : Alg)
    (s : ClusterState) : Nat × ClusterState :=
  if cpu_requirement ≤ 0 then (400, s)
  else
    match schedule_pod cpu_requirement algorithm s with
    | (.ok _ _, s1) => (201, s1)
    | (_, s1) => (500, s1)

/-- `POST /nodes/<id>/terminate`: mark unhealthy, then trigger
rescheduling. -/
def terminate_node_endpoint (node_id : Nat) (s : ClusterState) : Nat × ClusterState :=
  match terminate_node node_id s with
  | (true, s1) => (200, (reschedule_pods_from_node node_id s1).2)
  | (false, s1) => (404, s1)

/-- One committed operation against the control plane, at the endpoint
level (inputs the adapter would have accepted are validated as there). -/
inductive Op where
  | admitNode (env : DockerEnv) (cpu_cores : Int) (now : Nat)
  | create (cpu_requirement : Int) (algorithm : Alg)
  | heartbeat (node_id : Nat) (now : Nat)
  | terminate (node_id : Nat)
  | reschedule (node_id : Nat)
  | tick (now : Nat)
deriving DecidableEq, Repr

/-- Operations that touch no failure-recovery path. -/
def Op.isBasic : Op → Bool
  | .admitNode _ _ _ => true
  | .create _ _ => true
  | .heartbeat _ _ => true
  | _ => false

/-- Apply one operation. -/
def step (s : ClusterState) : Op → ClusterState
  | .admitNode env cpu now => (add_node_endpoint env cpu now s).2
  | .create cpu alg => (create_pod_endpoint cpu alg s).2
  | .heartbeat nid now => (update_node_heartbeat nid now s).2
  | .terminate nid => (terminate_node_endpoint nid s).2
  | .reschedule nid => (reschedule_pods_from_node nid s).2
  | .tick now => liveness_tick now s

/-- Empty initial state with an arbitrary entropy stream. -/
def init (entropy : List Nat) : ClusterState :=
  ⟨[], [], [], 0, entropy⟩

/-- Run a sequence of operations. -/
def run (ops : List Op) (s : ClusterState) : ClusterState :=
  ops.foldl step s

/-- The requirement recorded for a pod id, `0` if the record is gone. -/
def reqOf (pods : List (Nat × Pod)) (pid : Nat) : Int :=
  match lookupA pid pods with
  | some p => p.cpu_requirement
  | none => 0

/-- Sum of `cpu_requirement` over the pod ids of a node's pod list, read
from the pod registry (a deleted record contributes nothing). -/
def podsSum (pods : List (Nat × Pod)) (l : List Nat) : Int :=
  (l.map (reqOf pods)).sum

/-- Spec invariant 1: every node's `available_cores` equals
`cpu_cores` minus the requirements of the pods listed on it. -/
def availEq (s : ClusterState) : Prop :=
  ∀ e ∈ s.nodes, e.2.available_cores = e.2.cpu_cores - podsSum s.pods e.2.pods

/-- Spec invariant 4: no node has negative `available_cores`. -/
def nonNegAvail (s : ClusterState) : Prop :=
  ∀ e ∈ s.nodes, 0 ≤ e.2.available_cores

/-- Every pod id listed on a node is below the fresh-id counter. -/
def podsBounded (s : ClusterState) : Prop :=
  ∀ e ∈ s.nodes, ∀ pid ∈ e.2.pods, pid < s.nextId

instance (s : ClusterState) : Decidable (availEq s) := by
  unfold availEq; infer_instance

instance (s : ClusterState) : Decidable (nonNegAvail s) := by
  unfold nonNegAvail; infer_instance

instance (s : ClusterState) : Decidable (podsBounded s) := by
  unfold podsBounded; infer_instance

/-- Concrete trace: admit a 2-core node, place a 1-core pod on it, admit
a second 2-core node. -/
def trace3 : List Op :=
  [.admitNode .unavailable 2 0, .create 1 .firstFit, .admitNode .unavailable 2 0]

/-- The state after `trace3` with node `0` marked unhealthy: node `0`
holds pod `1` (1 core), node `2` is healthy and empty. -/
def s_c3 : ClusterState := (terminate_node 0 (run trace3 (init []))).2

/-- A state whose node `0` is already unhealthy with a stale heartbeat
and a stranded pod `10`, next to a healthy empty node `1`. -/
def s_c5 : ClusterState :=
  ⟨[(0, ⟨4, 2, .unhealthy, [10], "c"⟩), (1, ⟨4, 4, .healthy, [], "c"⟩)],
   [(0, 0), (1, 100)], [(10, ⟨2, 0, .firstFit⟩)], 11, []⟩

/-- A state with a single unhealthy node `0` with free capacity. -/
def s_unhealthy : ClusterState :=
  ⟨[(0, ⟨4, 4, .unhealthy, [], "c"⟩)], [(0, 0)], [], 1, []⟩

/-- Three healthy empty nodes with available capacities 5, 3, 3: the
two nodes tied at the minimum make the best-fit tie-break observable. -/
def s_c8 : ClusterState :=
  ⟨[(0, ⟨8, 5, .healthy, [], "c"⟩), (1, ⟨8, 3, .healthy, [], "c"⟩),
    (2, ⟨8, 3, .healthy, [], "c"⟩)], [], [], 20, []⟩

end Cluster

namespace Cluster

theorem lookupA_insertA_self (k : Nat) (v : α) (l : List (Nat × α)) :
    lookupA k (insertA k v l) = some v := by
  induction l with
  | nil => simp [insertA, lookupA]
  | cons e es ih =>
      by_cases h : e.1 = k
      · simp [insertA, h, lookupA]
      · simp [insertA, h, lookupA, ih]

theorem lookupA_insertA_ne {j k : Nat} (h : j ≠ k) (v : α) (l : List (Nat × α)) :
    lookupA j (insertA k v l) = lookupA j l := by
  induction l with
  | nil => simp [insertA, lookupA, Ne.symm h]
  | cons e es ih =>
      by_cases he : e.1 = k
      · subst he
        simp [insertA, lookupA, Ne.symm h]
      · simp [insertA, he, lookupA, ih]

theorem lookupA_setA_self (k : Nat) (f : α → α) (l : List (Nat × α)) :
    lookupA k (setA k f l) = (lookupA k l).map f := by
  induction l with
  | nil => simp [setA, lookupA]
  | cons e es ih =>
      by_cases h : e.1 = k
      · simp [setA, h, lookupA]
      · simp [setA, h, lookupA, ih]

theorem lookupA_setA_ne {j k : Nat} (h : j ≠ k) (f : α → α) (l : List (Nat × α)) :
    lookupA j (setA k f l) = lookupA j l := by
  induction l with
  | nil => simp [setA]
  | cons e es ih =>
      by_cases he : e.1 = k
      · subst he
        simp [setA, lookupA, Ne.symm h]
      · simp [setA, he, lookupA, ih]

theorem lookupA_eraseA_ne {j k : Nat} (h : j ≠ k) (l : List (Nat × α)) :
    lookupA j (eraseA k l) = lookupA j l := by
  induction l with
  | nil => simp [eraseA]
  | cons e es ih =>
      by_cases he : e.1 = k
      · subst he
        simp [eraseA, lookupA, Ne.symm h]
      · simp [eraseA, he, lookupA, ih]

theorem lookupA_eq_none_of_not_mem {k : Nat} {l : List (Nat × α)}
    (h : k ∉ l.map Prod.fst) : lookupA k l = none := by
  induction l with
  | nil => simp [lookupA]
  | cons e es ih =>
      simp only [List.map_cons, List.mem_cons] at h
      push_neg at h
      simp [lookupA, Ne.symm h.1, ih h.2]

theorem lookupA_eraseA_self {k : Nat} {l : List (Nat × α)}
    (hnd : (l.map Prod.fst).Nodup) : lookupA k (eraseA k l) = none := by
  induction l with
  | nil => simp [eraseA, lookupA]
  | cons e es ih =>
      simp only [List.map_cons, List.nodup_cons] at hnd
      by_cases he : e.1 = k
      · subst he
        simpa [eraseA] using lookupA_eq_none_of_not_mem hnd.1
      · simp [eraseA, he, lookupA, ih hnd.2]

theorem mem_of_lookupA {k : Nat} {v : α} {l : List (Nat × α)}
    (h : lookupA k l = some v) : (k, v) ∈ l := by
  induction l with
  | nil => simp [lookupA] at h
  | cons e es ih =>
      obtain ⟨e1, e2⟩ := e
      by_cases he : e1 = k
      · subst he
        simp [lookupA] at h
        subst h
        exact List.mem_cons_self _ _
      · simp [lookupA, he] at h
        exact List.mem_cons_of_mem _ (ih h)

theorem lookupA_of_mem_nodup {k : Nat} {v : α} {l : List (Nat × α)}
    (hnd : (l.map Prod.fst).Nodup) (h : (k, v) ∈ l) : lookupA k l = some v := by
  induction l with
  | nil => simp at h
  | cons e es ih =>
      simp only [List.map_cons, List.nodup_cons] at hnd
      rcases List.mem_cons.1 h with rfl | hmem
      · simp [lookupA]
      · have hk : e.1 ≠ k := by
          intro hek
          exact hnd.1 (hek ▸ (List.mem_map.2 ⟨(k, v), hmem, rfl⟩))
        simp [lookupA, hk, ih hnd.2 hmem]

theorem mem_insertA {e : Nat × α} {k : Nat} {v : α} {l : List (Nat × α)}
    (h : e ∈ insertA k v l) : e ∈ l ∨ e = (k, v) := by
  induction l with
  | nil => simpa [insertA] using h
  | cons x xs ih =>
      obtain ⟨x1, x2⟩ := x
      by_cases hx : x1 = k
      · subst hx
        simp only [insertA, if_pos rfl] at h
        rcases List.mem_cons.1 h with rfl | hmem
        · right; rfl
        · left; exact List.mem_cons_of_mem _ hmem
      · simp only [insertA, hx, ite_false] at h
        rcases List.mem_cons.1 h with rfl | hmem
        · left; exact List.mem_cons_self _ _
        · rcases ih hmem with hl | hr
          · left; exact List.mem_cons_of_mem _ hl
          · right; exact hr

theorem mem_setA {e : Nat × α} {k : Nat} {f : α → α} {l : List (Nat × α)}
    (h : e ∈ setA k f l) :
    e ∈ l ∨ ∃ n, lookupA k l = some n ∧ e = (k, f n) := by
  induction l with
  | nil => simp [setA] at h
  | cons x xs ih =>
      obtain ⟨x1, x2⟩ := x
      by_cases hx : x1 = k
      · subst hx
        simp only [setA, if_pos rfl] at h
        rcases List.mem_cons.1 h with rfl | hmem
        · right; exact ⟨x2, by simp [lookupA], rfl⟩
        · left; exact List.mem_cons_of_mem _ hmem
      · simp only [setA, hx, ite_false] at h
        rcases List.mem_cons.1 h with rfl | hmem
        · left; exact List.mem_cons_self _ _
        · rcases ih hmem with hl | ⟨n, hn, he⟩
          · left; exact List.mem_cons_of_mem _ hl
          · right
            refine ⟨n, ?_, he⟩
            simpa [lookupA, hx] using hn

theorem mem_keys_insertA {j k : Nat} {v : α} {l : List (Nat × α)}
    (h : j ∈ (insertA k v l).map Prod.fst) :
    j ∈ l.map Prod.fst ∨ j = k := by
  rcases List.mem_map.1 h with ⟨e, he, rfl⟩
  rcases mem_insertA he with hl | rfl
  · left; exact List.mem_map.2 ⟨e, hl, rfl⟩
  · right; rfl

theorem keys_insertA_nodup {l : List (Nat × α)}
    (hnd : (l.map Prod.fst).Nodup) (k : Nat) (v : α) :
    ((insertA k v l).map Prod.fst).Nodup := by
  induction l with
  | nil => simp [insertA]
  | cons e es ih =>
      simp only [List.map_cons, List.nodup_cons] at hnd
      by_cases he : e.1 = k
      · obtain ⟨e1, e2⟩ := e
        subst he
        simpa [insertA] using hnd
      · have hstep : (insertA k v (e :: es)).map Prod.fst
            = e.1 :: (insertA k v es).map Prod.fst := by
          simp [insertA, he]
        rw [hstep, List.nodup_cons]
        refine ⟨fun hmem => ?_, ih hnd.2⟩
        rcases mem_keys_insertA hmem with hl | rfl
        · exact hnd.1 hl
        · exact he rfl

theorem reqOf_insertA_self (m : List (Nat × Pod)) (pid : Nat) (p : Pod) :
    reqOf (insertA pid p m) pid = p.cpu_requirement := by
  simp [reqOf, lookupA_insertA_self]

theorem reqOf_insertA_ne {q pid : Nat} (h : q ≠ pid) (m : List (Nat × Pod)) (p : Pod) :
    reqOf (insertA pid p m) q = reqOf m q := by
  simp [reqOf, lookupA_insertA_ne h]

theorem podsSum_congr {m1 m2 : List (Nat × Pod)} {l : List Nat}
    (h : ∀ pid ∈ l, reqOf m1 pid = reqOf m2 pid) :
    podsSum m1 l = podsSum m2 l := by
  induction l with
  | nil => rfl
  | cons x xs ih =>
      simp only [podsSum, List.map_cons, List.sum_cons] at *
      rw [h x (List.mem_cons_self _ _), ih (fun pid hp => h pid (List.mem_cons_of_mem _ hp))]

theorem podsSum_append (m : List (Nat × Pod)) (l1 l2 : List Nat) :
    podsSum m (l1 ++ l2) = podsSum m l1 + podsSum m l2 := by
  simp [podsSum]

theorem minByKey_cons (key : Nat × Node → Int) (x : Nat × Node) (xs : List (Nat × Node)) :
    minByKey key (x :: xs) =
      match minByKey key xs with
      | none => some x
      | some m => some (if key m < key x then m else x) := rfl

theorem maxByKey_cons (key : Nat × Node → Int) (x : Nat × Node) (xs : List (Nat × Node)) :
    maxByKey key (x :: xs) =
      match maxByKey key xs with
      | none => some x
      | some m => some (if key x < key m then m else x) := rfl

theorem minByKey_spec (key : Nat × Node → Int) :
    ∀ {l : List (Nat × Node)}, l ≠ [] →
    ∃ l1 e l2, minByKey key l = some e ∧ l = l1 ++ e :: l2 ∧
      (∀ x ∈ l, key e ≤ key x) ∧ (∀ x ∈ l1, key e < key x) := by
  intro l
  induction l with
  | nil => intro h; exact absurd rfl h
  | cons x xs ih =>
      intro _
      cases xs with
      | nil => exact ⟨[], x, [], by simp [minByKey], rfl, by simp, by simp⟩
      | cons y ys =>
          obtain ⟨l1, e, l2, hm, hdec, hmin, hstrict⟩ := ih (by simp)
          by_cases hlt : key e < key x
          · refine ⟨x :: l1, e, l2, ?_, by simp [hdec], ?_, ?_⟩
            · rw [minByKey_cons, hm]
              simp [hlt]
            · intro z hz
              rcases List.mem_cons.1 hz with rfl | hz2
              · exact le_of_lt hlt
              · exact hmin z hz2
            · intro z hz
              rcases List.mem_cons.1 hz with rfl | hz2
              · exact hlt
              · exact hstrict z hz2
          · refine ⟨[], x, y :: ys, ?_, rfl, ?_, by simp⟩
            · rw [minByKey_cons, hm]
              simp [hlt]
            · intro z hz
              rcases List.mem_cons.1 hz with rfl | hz2
              · exact le_refl _
              · exact le_trans (not_lt.1 hlt) (hmin z hz2)

theorem maxByKey_spec (key : Nat × Node → Int) :
    ∀ {l : List (Nat × Node)}, l ≠ [] →
    ∃ l1 e l2, maxByKey key l = some e ∧ l = l1 ++ e :: l2 ∧
      (∀ x ∈ l, key x ≤ key e) ∧ (∀ x ∈ l1, key x < key e) := by
  intro l
  induction l with
  | nil => intro h; exact absurd rfl h
  | cons x xs ih =>
      intro _
      cases xs with
      | nil => exact ⟨[], x, [], by simp [maxByKey], rfl, by simp, by simp⟩
      | cons y ys =>
          obtain ⟨l1, e, l2, hm, hdec, hmax, hstrict⟩ := ih (by simp)
          by_cases hlt : key x < key e
          · refine ⟨x :: l1, e, l2, ?_, by simp [hdec], ?_, ?_⟩
            · rw [maxByKey_cons, hm]
              simp [hlt]
            · intro z hz
              rcases List.mem_cons.1 hz with rfl | hz2
              · exact le_of_lt hlt
              · exact hmax z hz2
            · intro z hz
              rcases List.mem_cons.1 hz with rfl | hz2
              · exact hlt
              · exact hstrict z hz2
          · refine ⟨[], x, y :: ys, ?_, rfl, ?_, by simp⟩
            · rw [maxByKey_cons, hm]
              simp [hlt]
            · intro z hz
              rcases List.mem_cons.1 hz with rfl | hz2
              · exact le_refl _
              · exact le_trans (hmax z hz2) (not_lt.1 hlt)

theorem minByKey_mem {key : Nat × Node → Int} {l : List (Nat × Node)}
    {e : Nat × Node} (h : minByKey key l = some e) : e ∈ l := by
  cases l with
  | nil => simp [minByKey] at h
  | cons x xs =>
      obtain ⟨l1, e', l2, hm, hdec, _, _⟩ := minByKey_spec key (l := x :: xs) (by simp)
      rw [h] at hm
      cases hm
      rw [hdec]
      exact List.mem_append.2 (Or.inr (List.mem_cons_self _ _))

theorem maxByKey_mem {key : Nat × Node → Int} {l : List (Nat × Node)}
    {e : Nat × Node} (h : maxByKey key l = some e) : e ∈ l := by
  cases l with
  | nil => simp [maxByKey] at h
  | cons x xs =>
      obtain ⟨l1, e', l2, hm, hdec, _, _⟩ := maxByKey_spec key (l := x :: xs) (by simp)
      rw [h] at hm
      cases hm
      rw [hdec]
      exact List.mem_append.2 (Or.inr (List.mem_cons_self _ _))

theorem select_node_mem {alg : Alg} {el : List (Nat × Node)} {ent : List Nat}
    {nid : Nat} (h : (select_node alg el ent).1 = some nid) :
    ∃ nd, (nid, nd) ∈ el := by
  cases alg with
  | firstFit =>
      simp only [select_node] at h
      rcases Option.map_eq_some'.1 h with ⟨e, he, rfl⟩
      cases el with
      | nil => simp at he
      | cons q qs =>
          simp only [List.head?] at he
          have hq : q = e := by injection he
          subst hq
          exact ⟨q.2, List.mem_cons_self _ _⟩
  | bestFit =>
      simp only [select_node] at h
      rcases Option.map_eq_some'.1 h with ⟨e, he, rfl⟩
      exact ⟨e.2, minByKey_mem he⟩
  | worstFit =>
      simp only [select_node] at h
      rcases Option.map_eq_some'.1 h with ⟨e, he, rfl⟩
      exact ⟨e.2, maxByKey_mem he⟩
  | roundRobin =>
      simp only [select_node] at h
      rcases Option.map_eq_some'.1 h with ⟨e, he, rfl⟩
      exact ⟨e.2, minByKey_mem he⟩
  | randomFit =>
      simp only [select_node] at h
      have hmem : nid ∈ el.map Prod.fst := List.get?_mem h
      rcases List.mem_map.1 hmem with ⟨e, he, rfl⟩
      exact ⟨e.2, he⟩

theorem add_pod_to_node_true {nid pid : Nat} {cpu : Int} {s s' : ClusterState}
    (h : add_pod_to_node nid pid cpu s = (true, s')) :
    ∃ n, lookupA nid s.nodes = some n ∧ cpu ≤ n.available_cores ∧
      s' = { s with nodes := setA nid (reserve_update pid cpu) s.nodes } := by
  unfold add_pod_to_node at h
  split at h
  next n hl =>
    split at h
    next hc =>
      simp only [Prod.mk.injEq, true_and] at h
      exact ⟨n, hl, hc, h.symm⟩
    next hc => simp at h
  next hl => simp at h

theorem add_pod_to_node_false {nid pid : Nat} {cpu : Int} {s s' : ClusterState}
    (h : add_pod_to_node nid pid cpu s = (false, s')) : s' = s := by
  unfold add_pod_to_node at h
  split at h
  next n hl =>
    split at h
    next hc => simp at h
    next hc =>
      simp only [Prod.mk.injEq] at h
      exact h.2.symm
  next hl =>
    simp only [Prod.mk.injEq] at h
    exact h.2.symm


theorem schedule_pod_spec (cpu : Int) (alg : Alg) (s : ClusterState) :
    ((schedule_pod cpu alg s).1.isOk = false ∧
      (schedule_pod cpu alg s).2.nodes = s.nodes ∧
      (schedule_pod cpu alg s).2.pods = s.pods ∧
      (schedule_pod cpu alg s).2.node_last_heartbeat = s.node_last_heartbeat ∧
      (schedule_pod cpu alg s).2.nextId = s.nextId + 1) ∨
    (∃ nid n nd,
      lookupA nid s.nodes = some n ∧ cpu ≤ n.available_cores ∧
      (nid, nd) ∈ eligible_nodes cpu s ∧
      (schedule_pod cpu alg s).1 = .ok s.nextId nid ∧
      (schedule_pod cpu alg s).2.nodes = setA nid (reserve_update s.nextId cpu) s.nodes ∧
      (schedule_pod cpu alg s).2.pods = insertA s.nextId ⟨cpu, nid, alg⟩ s.pods ∧
      (schedule_pod cpu alg s).2.node_last_heartbeat = s.node_last_heartbeat ∧
      (schedule_pod cpu alg s).2.nextId = s.nextId + 1) := by
  simp only [schedule_pod]
  by_cases hh : get_healthy_nodes s = []
  · rw [if_pos hh]
    left
    exact ⟨rfl, rfl, rfl, rfl, rfl⟩
  · rw [if_neg hh]
    by_cases he : (get_healthy_nodes s).filter
        (fun e => decide (cpu ≤ e.2.available_cores)) = []
    · rw [if_pos he]
      left
      exact ⟨rfl, rfl, rfl, rfl, rfl⟩
    · rw [if_neg he]
      split
      next nid ent hsel =>
          obtain ⟨nd, hnd⟩ : ∃ nd, (nid, nd) ∈ (get_healthy_nodes s).filter
              (fun e => decide (cpu ≤ e.2.available_cores)) :=
            select_node_mem (by rw [hsel])
          split
          next s3 hadd =>
              obtain ⟨n, hn, hcpu, hs3⟩ := add_pod_to_node_true hadd
              subst hs3
              right
              exact ⟨nid, n, nd, hn, hcpu, hnd, rfl, rfl, rfl, rfl, rfl⟩
          next s3 hadd =>
              have hs3 := add_pod_to_node_false hadd
              subst hs3
              left
              exact ⟨rfl, rfl, rfl, rfl, rfl⟩
      next ent hsel =>
          left
          exact ⟨rfl, rfl, rfl, rfl, rfl⟩



theorem filter_foldl_if {β : Type} {σ : Type} (p : β → Prop) [DecidablePred p]
    (g : σ → β → σ) :
    ∀ (l : List β) (a : σ),
      l.foldl (fun st e => if p e then g st e else st) a
        = (l.filter (fun e => decide (p e))).foldl g a := by
  intro l
  induction l with
  | nil => intro a; rfl
  | cons x xs ih =>
      intro a
      by_cases hx : p x
      · rw [List.foldl_cons, if_pos hx, List.filter_cons, if_pos (decide_eq_true hx),
          List.foldl_cons]
        exact ih _
      · rw [List.foldl_cons, if_neg hx, List.filter_cons, if_neg (by simpa using hx)]
        exact ih a

/-- C2 (amended): `update_node_heartbeat` on an existing node refreshes
`last_heartbeat` and sets the status back to `healthy` — so a heartbeat
alone does resurrect an unhealthy node within a process run; pod state
is untouched. -/
theorem c2_heartbeat_resurrects (s : ClusterState) (nid now : Nat) (n : Node)
    (hf : lookupA nid s.nodes = some n) :
    (update_node_heartbeat nid now s).1 = true ∧
    lookupA nid (update_node_heartbeat nid now s).2.nodes
      = some { n with status := .healthy } ∧
    lookupA nid (update_node_heartbeat nid now s).2.node_last_heartbeat = some now ∧
    (update_node_heartbeat nid now s).2.pods = s.pods := by
  have hc : containsA nid s.nodes = true := by simp [containsA, hf]
  unfold update_node_heartbeat
  rw [if_pos hc]
  refine ⟨rfl, ?_, ?_, rfl⟩
  · rw [lookupA_setA_self, hf]
    rfl
  · exact lookupA_insertA_self _ _ _

/-- C2 witness: the amended statement evaluated on a concrete unhealthy
node. -/
theorem c2_heartbeat_resurrects_witness :
    (update_node_heartbeat 0 50 s_unhealthy).1 = true ∧
    lookupA 0 (update_node_heartbeat 0 50 s_unhealthy).2.nodes
      = some ⟨4, 4, .healthy, [], "c"⟩ ∧
    lookupA 0 (update_node_heartbeat 0 50 s_unhealthy).2.node_last_heartbeat = some 50 ∧
    (update_node_heartbeat 0 50 s_unhealthy).2.pods = s_unhealthy.pods :=
  c2_heartbeat_resurrects s_unhealthy 0 50 ⟨4, 4, .unhealthy, [], "c"⟩ rfl

/-- C2 counterexample: a heartbeat on an unhealthy node flips its status
back to `healthy`, contradicting the claim that the node stays
`Unhealthy`. -/
theorem c2_counterexample :
    (lookupA 0 s_unhealthy.nodes).map Node.status = some .unhealthy ∧
    (lookupA 0 (update_node_heartbeat 0 50 s_unhealthy).2.nodes).map Node.status
      = some .healthy := by
  constructor <;> rfl

/-- C4 (amended): `add_pod_to_node` succeeds exactly when the node
exists and `available_cores ≥ cpu` — the status is never consulted, so
an unhealthy node is not refused; a failed reservation leaves the state
unchanged and a successful one appends the pod id and decrements only
the target node. -/
theorem c4_reserve_characterisation (s : ClusterState) (nid pid : Nat) (cpu : Int) :
    ((add_pod_to_node nid pid cpu s).1 = true ↔
      ∃ n, lookupA nid s.nodes = some n ∧ cpu ≤ n.available_cores) ∧
    ((add_pod_to_node nid pid cpu s).1 = false → (add_pod_to_node nid pid cpu s).2 = s) ∧
    (∀ n, lookupA nid s.nodes = some n → cpu ≤ n.available_cores →
      lookupA nid (add_pod_to_node nid pid cpu s).2.nodes
          = some { n with pods := n.pods ++ [pid],
                          available_cores := n.available_cores - cpu } ∧
      ∀ j, j ≠ nid → lookupA j (add_pod_to_node nid pid cpu s).2.nodes = lookupA j s.nodes) := by
  refine ⟨⟨fun h => ?_, fun h => ?_⟩, fun h => ?_, fun n hn hcpu => ?_⟩
  · rcases hres : add_pod_to_node nid pid cpu s with ⟨ok, s2⟩
    rw [hres] at h
    cases ok with
    | false => simp at h
    | true =>
        obtain ⟨n, hn, hcpu, _⟩ := add_pod_to_node_true hres
        exact ⟨n, hn, hcpu⟩
  · obtain ⟨n, hn, hcpu⟩ := h
    simp only [add_pod_to_node, hn]
    rw [if_pos hcpu]
  · rcases hres : add_pod_to_node nid pid cpu s with ⟨ok, s2⟩
    cases ok with
    | true =>
        rw [hres] at h
        simp at h
    | false => simpa using add_pod_to_node_false hres
  · have hunf : add_pod_to_node nid pid cpu s
        = (true, { s with nodes := setA nid (reserve_update pid cpu) s.nodes }) := by
      simp only [add_pod_to_node, hn]
      rw [if_pos hcpu]
    rw [hunf]
    constructor
    · rw [lookupA_setA_self, hn]
      rfl
    · intro j hj
      exact lookupA_setA_ne hj _ _

/-- C4 witness: the characterisation instantiated at a concrete state
whose only node is unhealthy yet has capacity. -/
theorem c4_reserve_characterisation_witness :
    (add_pod_to_node 0 9 2 s_unhealthy).1 = true :=
  (c4_reserve_characterisation s_unhealthy 0 9 2).1.mpr
    ⟨⟨4, 4, .unhealthy, [], "c"⟩, rfl, by decide⟩

/-- C4 counterexample: the reservation on an unhealthy node with spare
capacity succeeds and decrements the node, where the claim demands a
NotHealthy refusal leaving the node unchanged. -/
theorem c4_counterexample :
    (lookupA 0 s_unhealthy.nodes).map Node.status = some .unhealthy ∧
    (add_pod_to_node 0 9 2 s_unhealthy).1 = true ∧
    (lookupA 0 (add_pod_to_node 0 9 2 s_unhealthy).2.nodes).map Node.available_cores
      = some 2 := by
  refine ⟨rfl, rfl, ?_⟩
  decide

/-- C5 (amended): a liveness tick marks unhealthy and hands to the
Recovery Coordinator exactly the heartbeat entries whose age exceeds
`heartbeat_timeout`, regardless of the node's current status; fresh
entries are skipped entirely. In particular an already-unhealthy node
with a stale heartbeat is handed to recovery again at every tick. -/
theorem c5_tick_processes_exactly_stale (now : Nat) (s : ClusterState) :
    liveness_tick now s =
      (s.node_last_heartbeat.filter
        (fun e => decide (heartbeat_timeout < now - e.2))).foldl
        (fun st e => (reschedule_pods_from_node e.1 (mark_node_unhealthy e.1 st).2).2)
        s := by
  unfold liveness_tick
  exact filter_foldl_if _ _ _ _

/-- C5 counterexample: node 0 of `s_c5` is already unhealthy before the
tick, yet the tick at time 100 hands it to the Recovery Coordinator
again, which moves its stranded pod 10 onto node 1 as new pod 11. -/
theorem c5_counterexample :
    (lookupA 0 s_c5.nodes).map Node.status = some .unhealthy ∧
    lookupA 10 (liveness_tick 100 s_c5).pods = none ∧
    lookupA 11 (liveness_tick 100 s_c5).pods = some ⟨2, 1, .firstFit⟩ := by
  refine ⟨rfl, ?_, ?_⟩ <;> decide

/-- C6: a failing `schedule_pod` distinguishes its two error causes:
the no-healthy-nodes error is returned exactly when the healthy set is
empty, and the insufficient-resources error exactly when healthy nodes
exist but none passes the capacity filter. -/
theorem c6_error_discrimination (cpu : Int) (alg : Alg) (s : ClusterState) :
    ((schedule_pod cpu alg s).1 = .noHealthyNodes ↔ get_healthy_nodes s = []) ∧
    ((schedule_pod cpu alg s).1 = .insufficientResources ↔
      get_healthy_nodes s ≠ [] ∧ eligible_nodes cpu s = []) := by
  simp only [schedule_pod]
  by_cases hh : get_healthy_nodes s = []
  · rw [if_pos hh]
    constructor
    · simp [hh]
    · simp [hh]
  · rw [if_neg hh]
    by_cases he : (get_healthy_nodes s).filter
        (fun e => decide (cpu ≤ e.2.available_cores)) = []
    · rw [if_pos he]
      constructor
      · simp [hh]
      · simp [hh, he, eligible_nodes]
    · rw [if_neg he]
      split
      next nid ent hsel =>
          split
          next s3 hadd => constructor <;> simp [hh, he, eligible_nodes]
          next s3 hadd => constructor <;> simp [hh, he, eligible_nodes]
      next ent hsel => constructor <;> simp [hh, he, eligible_nodes]

/-- C6 witness: the discrimination evaluated concretely — an empty
cluster yields the no-healthy-nodes error. -/
theorem c6_error_discrimination_witness :
    (schedule_pod 1 .firstFit (init [])).1 = .noHealthyNodes :=
  (c6_error_discrimination 1 .firstFit (init [])).1.mpr rfl

/-- C7: whenever `schedule_pod` fails (any of the three error returns),
the node registry and the pod registry are unchanged. -/
theorem c7_error_leaves_state (cpu : Int) (alg : Alg) (s : ClusterState)
    (h : (schedule_pod cpu alg s).1.isOk = false) :
    (schedule_pod cpu alg s).2.nodes = s.nodes ∧
    (schedule_pod cpu alg s).2.pods = s.pods := by
  rcases schedule_pod_spec cpu alg s with ⟨_, hn, hp, _, _⟩ | ⟨nid, n, nd, _, _, _, hok, _⟩
  · exact ⟨hn, hp⟩
  · rw [hok] at h
    simp [ScheduleResult.isOk] at h

/-- C7 witness: a failing schedule on the empty cluster leaves both
registries unchanged. -/
theorem c7_error_leaves_state_witness :
    (schedule_pod 1 .firstFit (init [])).2.nodes = (init []).nodes ∧
    (schedule_pod 1 .firstFit (init [])).2.pods = (init []).pods :=
  c7_error_leaves_state 1 .firstFit (init []) (by decide)

/-- C10: node admission always succeeds — whatever the container
runtime does, `add_node` returns the fresh id with `success = true`,
registering a healthy node with `available = capacity`, no pods and a
current heartbeat; the endpoint answers 201 for every valid capacity,
so its 500 branch is unreachable. -/
theorem c10_add_node_always_succeeds (env : DockerEnv) (cpu : Int) (now : Nat)
    (s : ClusterState) :
    (add_node env cpu now s).2.1 = true ∧
    (add_node env cpu now s).1 = s.nextId ∧
    (∃ cid, lookupA s.nextId (add_node env cpu now s).2.2.nodes
        = some ⟨cpu, cpu, .healthy, [], cid⟩) ∧
    lookupA s.nextId (add_node env cpu now s).2.2.node_last_heartbeat = some now ∧
    (add_node_endpoint env cpu now s).1 = if cpu ≤ 0 then 400 else 201 := by
  refine ⟨rfl, rfl, ⟨_, lookupA_insertA_self _ _ _⟩, lookupA_insertA_self _ _ _, ?_⟩
  by_cases hc : cpu ≤ 0
  · simp [add_node_endpoint, hc]
  · simp [add_node_endpoint, hc, add_node]


theorem foldl_preserve {σ β : Type} (P : σ → Prop) (f : σ → β → σ)
    (hf : ∀ a b, P a → P (f a b)) :
    ∀ (l : List β) (a : σ), P a → P (l.foldl f a) := by
  intro l
  induction l with
  | nil => intro a ha; exact ha
  | cons x xs ih =>
      intro a ha
      exact ih _ (hf a x ha)

theorem nonNeg_list_setA {l : List (Nat × Node)} {k : Nat} {f : Node → Node}
    (hf : ∀ n, (f n).available_cores = n.available_cores)
    (h : ∀ e ∈ l, 0 ≤ e.2.available_cores) :
    ∀ e ∈ setA k f l, 0 ≤ e.2.available_cores := by
  intro e he
  rcases mem_setA he with hm | ⟨n, hn, rfl⟩
  · exact h e hm
  · show 0 ≤ (f n).available_cores
    rw [hf]
    exact h (k, n) (mem_of_lookupA hn)

theorem nonNeg_schedule (cpu : Int) (alg : Alg) (s : ClusterState)
    (h : nonNegAvail s) : nonNegAvail (schedule_pod cpu alg s).2 := by
  rcases schedule_pod_spec cpu alg s with ⟨_, hn, _, _, _⟩ |
    ⟨nid, n, nd, hlook, hcpu, _, _, hnodes, _, _, _⟩
  · unfold nonNegAvail
    rw [hn]
    exact h
  · unfold nonNegAvail
    rw [hnodes]
    intro e he
    rcases mem_setA he with hm | ⟨n2, hn2, rfl⟩
    · exact h e hm
    · have hn2n : n2 = n := by
        rw [hlook] at hn2
        injection hn2 with hx
        exact hx.symm
      subst hn2n
      show 0 ≤ (reserve_update s.nextId cpu n2).available_cores
      simp only [reserve_update]
      omega

theorem nonNeg_reschedule (nid : Nat) (s : ClusterState)
    (h : nonNegAvail s) : nonNegAvail (reschedule_pods_from_node nid s).2 := by
  simp only [reschedule_pods_from_node]
  by_cases hc : containsA nid s.nodes = true
  · rw [if_pos hc]
    refine foldl_preserve nonNegAvail _ ?_ _ s h
    intro a b ha
    rcases hr : schedule_pod b.2.cpu_requirement b.2.algorithm a with ⟨res, st1⟩
    have h1 : nonNegAvail st1 := by
      have h2 := nonNeg_schedule b.2.cpu_requirement b.2.algorithm a ha
      rw [hr] at h2
      exact h2
    cases res <;> exact h1
  · rw [if_neg hc]
    exact h

theorem nonNeg_mark (nid : Nat) (s : ClusterState)
    (h : nonNegAvail s) : nonNegAvail (mark_node_unhealthy nid s).2 := by
  unfold mark_node_unhealthy
  by_cases hc : containsA nid s.nodes = true
  · rw [if_pos hc]
    exact nonNeg_list_setA (fun n => rfl) h
  · rw [if_neg hc]
    exact h

theorem nonNeg_terminate (nid : Nat) (s : ClusterState)
    (h : nonNegAvail s) : nonNegAvail (terminate_node nid s).2 := by
  unfold terminate_node
  by_cases hc : containsA nid s.nodes = true
  · rw [if_pos hc]
    exact nonNeg_list_setA (fun n => rfl) h
  · rw [if_neg hc]
    exact h

theorem nonNeg_heartbeat (nid now : Nat) (s : ClusterState)
    (h : nonNegAvail s) : nonNegAvail (update_node_heartbeat nid now s).2 := by
  unfold update_node_heartbeat
  by_cases hc : containsA nid s.nodes = true
  · rw [if_pos hc]
    exact nonNeg_list_setA (fun n => rfl) h
  · rw [if_neg hc]
    exact h

theorem nonNeg_tick (now : Nat) (s : ClusterState)
    (h : nonNegAvail s) : nonNegAvail (liveness_tick now s) := by
  unfold liveness_tick
  refine foldl_preserve nonNegAvail _ ?_ _ s h
  intro a b ha
  by_cases hb : heartbeat_timeout < now - b.2
  · rw [if_pos hb]
    exact nonNeg_reschedule _ _ (nonNeg_mark _ _ ha)
  · rw [if_neg hb]
    exact ha

theorem nonNeg_step (s : ClusterState) (op : Op)
    (h : nonNegAvail s) : nonNegAvail (step s op) := by
  cases op with
  | admitNode env cpu now =>
      show nonNegAvail (add_node_endpoint env cpu now s).2
      unfold add_node_endpoint
      by_cases hc : cpu ≤ 0
      · rw [if_pos hc]
        exact h
      · rw [if_neg hc]
        show nonNegAvail { s with
          nodes := insertA s.nextId ⟨cpu, cpu, .healthy, [], _⟩ s.nodes,
          node_last_heartbeat := insertA s.nextId now s.node_last_heartbeat,
          nextId := s.nextId + 1 }
        intro e he
        rcases mem_insertA he with hm | rfl
        · exact h e hm
        · show 0 ≤ cpu
          omega
  | create cpu alg =>
      show nonNegAvail (create_pod_endpoint cpu alg s).2
      unfold create_pod_endpoint
      by_cases hc : cpu ≤ 0
      · rw [if_pos hc]
        exact h
      · rw [if_neg hc]
        rcases hr : schedule_pod cpu alg s with ⟨res, s1⟩
        have h1 : nonNegAvail s1 := by
          have h2 := nonNeg_schedule cpu alg s h
          rw [hr] at h2
          exact h2
        cases res <;> exact h1
  | heartbeat nid now => exact nonNeg_heartbeat nid now s h
  | terminate nid =>
      show nonNegAvail (terminate_node_endpoint nid s).2
      unfold terminate_node_endpoint
      rcases ht : terminate_node nid s with ⟨ok, s1⟩
      have h1 : nonNegAvail s1 := by
        have h2 := nonNeg_terminate nid s h
        rw [ht] at h2
        exact h2
      cases ok with
      | true => exact nonNeg_reschedule nid s1 h1
      | false => exact h1
  | reschedule nid => exact nonNeg_reschedule nid s h
  | tick now => exact nonNeg_tick now s h

/-- C9: after every committed operation sequence no node's
`available_cores` is negative, and a reservation that would drive a
node below zero is refused by `add_pod_to_node` without mutating the
state. -/
theorem c9_available_nonnegative :
    (∀ (ops : List Op) (entropy : List Nat), nonNegAvail (run ops (init entropy))) ∧
    (∀ (s : ClusterState) (nid pid : Nat) (cpu : Int) (n : Node),
      lookupA nid s.nodes = some n → n.available_cores < cpu →
      add_pod_to_node nid pid cpu s = (false, s)) := by
  constructor
  · intro ops entropy
    refine foldl_preserve nonNegAvail step nonNeg_step ops (init entropy) ?_
    intro e he
    simp [init] at he
  · intro s nid pid cpu n hn hlt
    simp only [add_pod_to_node, hn]
    rw [if_neg (not_le.2 hlt)]

/-- C9 witness: the invariant evaluated after a concrete trace, and a
concrete rejected over-reservation that leaves the state unchanged. -/
theorem c9_available_nonnegative_witness :
    nonNegAvail (run trace3 (init [])) ∧
    add_pod_to_node 0 9 9 s_unhealthy = (false, s_unhealthy) :=
  ⟨c9_available_nonnegative.1 trace3 [],
   c9_available_nonnegative.2 s_unhealthy 0 9 9 ⟨4, 4, .unhealthy, [], "c"⟩ rfl (by decide)⟩


theorem good_step_basic (s : ClusterState) (op : Op) (hop : op.isBasic = true)
    (h : podsBounded s ∧ availEq s) :
    podsBounded (step s op) ∧ availEq (step s op) := by
  cases op with
  | admitNode env cpu now =>
      show podsBounded (add_node_endpoint env cpu now s).2 ∧
        availEq (add_node_endpoint env cpu now s).2
      unfold add_node_endpoint
      by_cases hc : cpu ≤ 0
      · rw [if_pos hc]
        exact h
      · rw [if_neg hc]
        constructor
        · intro e he pid hpid
          rcases mem_insertA he with hm | rfl
          · exact Nat.lt_succ_of_lt (h.1 e hm pid hpid)
          · exact absurd hpid (List.not_mem_nil pid)
        · intro e he
          rcases mem_insertA he with hm | rfl
          · exact h.2 e hm
          · show (cpu : Int) = cpu - podsSum s.pods []
            simp [podsSum]
  | heartbeat nid now =>
      show podsBounded (update_node_heartbeat nid now s).2 ∧
        availEq (update_node_heartbeat nid now s).2
      unfold update_node_heartbeat
      by_cases hc : containsA nid s.nodes = true
      · rw [if_pos hc]
        constructor
        · intro e he pid hpid
          rcases mem_setA he with hm | ⟨n, hn, rfl⟩
          · exact h.1 e hm pid hpid
          · exact h.1 (nid, n) (mem_of_lookupA hn) pid hpid
        · intro e he
          rcases mem_setA he with hm | ⟨n, hn, rfl⟩
          · exact h.2 e hm
          · exact h.2 (nid, n) (mem_of_lookupA hn)
      · rw [if_neg hc]
        exact h
  | create cpu alg =>
      show podsBounded (create_pod_endpoint cpu alg s).2 ∧
        availEq (create_pod_endpoint cpu alg s).2
      unfold create_pod_endpoint
      by_cases hc : cpu ≤ 0
      · rw [if_pos hc]
        exact h
      · rw [if_neg hc]
        rcases hr : schedule_pod cpu alg s with ⟨res, s1⟩
        have hmaster := schedule_pod_spec cpu alg s
        rw [hr] at hmaster
        dsimp only at hmaster
        have hgood : podsBounded s1 ∧ availEq s1 := by
          rcases hmaster with ⟨_, hn, hp, _, hid⟩ |
            ⟨nid, n, nd, hlook, hcpu2, _, _, hnodes, hpods, _, hid⟩
          · constructor
            · intro e he pid hpid
              rw [hn] at he
              rw [hid]
              exact Nat.lt_succ_of_lt (h.1 e he pid hpid)
            · intro e he
              rw [hn] at he
              rw [hp]
              exact h.2 e he
          · constructor
            · intro e he pid hpid
              rw [hnodes] at he
              rw [hid]
              rcases mem_setA he with hm | ⟨n2, hn2, rfl⟩
              · exact Nat.lt_succ_of_lt (h.1 e hm pid hpid)
              · have hpid2 : pid ∈ n2.pods ++ [s.nextId] := hpid
                rcases List.mem_append.1 hpid2 with hp1 | hp2
                · exact Nat.lt_succ_of_lt (h.1 (nid, n2) (mem_of_lookupA hn2) pid hp1)
                · have : pid = s.nextId := by simpa using hp2
                  omega
            · intro e he
              rw [hnodes] at he
              rw [hpods]
              rcases mem_setA he with hm | ⟨n2, hn2, rfl⟩
              · have hb := h.1 e hm
                have hsum : podsSum (insertA s.nextId ⟨cpu, nid, alg⟩ s.pods) e.2.pods
                    = podsSum s.pods e.2.pods :=
                  podsSum_congr (fun pid hp => reqOf_insertA_ne (Nat.ne_of_lt (hb pid hp)) _ _)
                rw [hsum]
                exact h.2 e hm
              · have hmem := mem_of_lookupA hn2
                have hb := h.1 (nid, n2) hmem
                show (reserve_update s.nextId cpu n2).available_cores
                    = (reserve_update s.nextId cpu n2).cpu_cores
                      - podsSum (insertA s.nextId ⟨cpu, nid, alg⟩ s.pods)
                          (reserve_update s.nextId cpu n2).pods
                simp only [reserve_update]
                rw [podsSum_append]
                have hsum : podsSum (insertA s.nextId ⟨cpu, nid, alg⟩ s.pods) n2.pods
                    = podsSum s.pods n2.pods :=
                  podsSum_congr (fun pid hp => reqOf_insertA_ne (Nat.ne_of_lt (hb pid hp)) _ _)
                rw [hsum]
                have hone : podsSum (insertA s.nextId ⟨cpu, nid, alg⟩ s.pods) [s.nextId]
                    = cpu := by
                  simp [podsSum, reqOf_insertA_self]
                rw [hone]
                have heq : n2.available_cores = n2.cpu_cores - podsSum s.pods n2.pods :=
                  h.2 (nid, n2) hmem
                rw [heq]
                ring
        cases res <;> exact hgood
  | terminate nid => simp [Op.isBasic] at hop
  | reschedule nid => simp [Op.isBasic] at hop
  | tick now => simp [Op.isBasic] at hop

theorem good_run_basic : ∀ (ops : List Op), (∀ op ∈ ops, op.isBasic = true) →
    ∀ s : ClusterState, podsBounded s ∧ availEq s →
    podsBounded (run ops s) ∧ availEq (run ops s) := by
  intro ops
  induction ops with
  | nil => intro _ s hs; exact hs
  | cons op ops ih =>
      intro hb s hs
      exact ih (fun o ho => hb o (List.mem_cons_of_mem _ ho)) (step s op)
        (good_step_basic s op (hb op (List.mem_cons_self _ _)) hs)

/-- C1 (amended): over every sequence of admit, schedule and heartbeat
operations — no failure-recovery step — every node satisfies
`available_cores = cpu_cores − Σ cpu_requirement` over its listed pods.
A reschedule that successfully moves a pod breaks the identity on the
failed source node, because the moved pod's capacity is never released
there and its id stays in the node's pod list (see the
counterexample). -/
theorem c1_capacity_invariant_basic (ops : List Op) (entropy : List Nat)
    (hb : ∀ op ∈ ops, op.isBasic = true) :
    availEq (run ops (init entropy)) :=
  (good_run_basic ops hb (init entropy)
    ⟨fun e he => absurd he (List.not_mem_nil e),
     fun e he => absurd he (List.not_mem_nil e)⟩).2

/-- C1 witness: the bookkeeping identity evaluated after a concrete
admit/schedule/heartbeat trace. -/
theorem c1_capacity_invariant_basic_witness :
    availEq (run [Op.admitNode .unavailable 4 0, Op.create 2 .firstFit,
      Op.heartbeat 0 7] (init [])) :=
  c1_capacity_invariant_basic _ [] (by decide)

/-- C1 counterexample: after `trace3` plus terminating node 0 — whose
pod is then successfully rescheduled — node 0 still lists the deleted
pod and keeps `available_cores = 1 ≠ 2 − 0`, so the claimed invariant
fails for sequences containing recovery operations. -/
theorem c1_counterexample :
    ¬ availEq (run (trace3 ++ [Op.terminate 0]) (init [])) := by decide


theorem add_pod_to_node_succeeds {nid pid : Nat} {cpu : Int} {s : ClusterState}
    {n : Node} (hn : lookupA nid s.nodes = some n) (hcpu : cpu ≤ n.available_cores) :
    add_pod_to_node nid pid cpu s
      = (true, { s with nodes := setA nid (reserve_update pid cpu) s.nodes }) := by
  simp only [add_pod_to_node, hn]
  rw [if_pos hcpu]

theorem schedule_pod_select_ok (cpu : Int) (alg : Alg) (s : ClusterState)
    (nid : Nat) (nd : Node) (ent : List Nat)
    (hh : ¬ get_healthy_nodes s = [])
    (hsel : select_node alg ((get_healthy_nodes s).filter
        (fun e => decide (cpu ≤ e.2.available_cores))) s.entropy = (some nid, ent))
    (hlook : lookupA nid s.nodes = some nd) (hcpu : cpu ≤ nd.available_cores) :
    (schedule_pod cpu alg s).1 = .ok s.nextId nid := by
  have hE : ¬ (get_healthy_nodes s).filter
      (fun e => decide (cpu ≤ e.2.available_cores)) = [] := by
    intro h0
    rw [h0] at hsel
    cases alg <;> simp [select_node, minByKey, maxByKey] at hsel
  simp only [schedule_pod]
  rw [if_neg hh, if_neg hE]
  split
  next nid2 ent2 hsel2 =>
      rw [hsel2] at hsel
      have hnid : nid2 = nid := by
        have h1 := congrArg Prod.fst hsel
        simpa using h1
      subst hnid
      split
      next s3 hadd => rfl
      next s3 hadd =>
          have hlook2 : lookupA nid2 ({ s with nextId := s.nextId + 1, entropy := ent2 } : ClusterState).nodes = some nd := hlook
          have htrue := @add_pod_to_node_succeeds nid2 s.nextId cpu _ nd hlook2 hcpu
          rw [htrue] at hadd
          simp at hadd
  next x ent2 hsel2 =>
      rw [hsel2] at hsel
      simp at hsel

/-- C8: with a non-empty eligible set `E`, best-fit scheduling succeeds
on a node of `E` with minimal available capacity, and among ties on the
earliest-admitted one: every node of `E` listed before the chosen one
(insertion order = admission order) has strictly larger available
capacity, and no node of `E` has smaller. -/
theorem c8_bestfit_minimal (cpu : Int) (s : ClusterState)
    (hnd : (s.nodes.map Prod.fst).Nodup)
    (hE : eligible_nodes cpu s ≠ []) :
    ∃ nid nd l1 l2,
      (schedule_pod cpu .bestFit s).1 = .ok s.nextId nid ∧
      eligible_nodes cpu s = l1 ++ (nid, nd) :: l2 ∧
      (∀ x ∈ eligible_nodes cpu s, nd.available_cores ≤ x.2.available_cores) ∧
      (∀ x ∈ l1, nd.available_cores < x.2.available_cores) := by
  obtain ⟨l1, e, l2, hm, hdec, hmin, hstrict⟩ :=
    minByKey_spec (fun e => e.2.available_cores) hE
  obtain ⟨nid, nd⟩ := e
  have hmem : (nid, nd) ∈ eligible_nodes cpu s := by
    rw [hdec]
    exact List.mem_append.2 (Or.inr (List.mem_cons_self _ _))
  have hmemn : (nid, nd) ∈ s.nodes :=
    List.mem_of_mem_filter (List.mem_of_mem_filter hmem)
  have hlook : lookupA nid s.nodes = some nd := lookupA_of_mem_nodup hnd hmemn
  have hcpu : cpu ≤ nd.available_cores := by
    have h1 := List.of_mem_filter hmem
    simpa using h1
  have hh : ¬ get_healthy_nodes s = [] := by
    intro h0
    apply hE
    show (get_healthy_nodes s).filter (fun e => decide (cpu ≤ e.2.available_cores)) = []
    rw [h0]
    rfl
  have hsel : select_node .bestFit ((get_healthy_nodes s).filter
      (fun e => decide (cpu ≤ e.2.available_cores))) s.entropy
      = (some nid, s.entropy) := by
    show ((minByKey (fun e => e.2.available_cores) (eligible_nodes cpu s)).map Prod.fst,
      s.entropy) = _
    rw [hm]
    rfl
  exact ⟨nid, nd, l1, l2,
    schedule_pod_select_ok cpu .bestFit s nid nd s.entropy hh hsel hlook hcpu,
    hdec, hmin, hstrict⟩

/-- C8 witness: best-fit on `s_c8` (capacities 5, 3, 3) instantiating
the theorem; the chosen node is eligible, minimal and earliest among
the tie. -/
theorem c8_bestfit_minimal_witness :
    ∃ nid nd l1 l2,
      (schedule_pod 2 .bestFit s_c8).1 = .ok s_c8.nextId nid ∧
      eligible_nodes 2 s_c8 = l1 ++ (nid, nd) :: l2 ∧
      (∀ x ∈ eligible_nodes 2 s_c8, nd.available_cores ≤ x.2.available_cores) ∧
      (∀ x ∈ l1, nd.available_cores < x.2.available_cores) :=
  c8_bestfit_minimal 2 s_c8 (by decide) (by decide)

theorem keys_setA (k : Nat) (f : α → α) (l : List (Nat × α)) :
    (setA k f l).map Prod.fst = l.map Prod.fst := by
  induction l with
  | nil => rfl
  | cons e es ih =>
      by_cases h : e.1 = k
      · simp [setA, h]
      · simp [setA, h, ih]

theorem eraseA_sublist (k : Nat) (l : List (Nat × α)) : (eraseA k l).Sublist l := by
  induction l with
  | nil => simp [eraseA]
  | cons e es ih =>
      by_cases h : e.1 = k
      · simp only [eraseA, h, if_pos]
        exact List.sublist_cons_of_sublist e (List.Sublist.refl es)
      · simp only [eraseA, h, ite_false]
        exact ih.cons₂ e

theorem mem_eraseA {e : Nat × α} {k : Nat} {l : List (Nat × α)}
    (h : e ∈ eraseA k l) : e ∈ l :=
  (eraseA_sublist k l).subset h

theorem keys_eraseA_nodup {k : Nat} {l : List (Nat × α)}
    (h : (l.map Prod.fst).Nodup) : ((eraseA k l).map Prod.fst).Nodup :=
  List.Nodup.sublist ((eraseA_sublist k l).map Prod.fst) h

theorem reschedule_step_of_ok {st st1 : ClusterState} {e : Nat × Pod} {p q : Nat}
    (hr : schedule_pod e.2.cpu_requirement e.2.algorithm st = (.ok p q, st1)) :
    reschedule_step st e = { st1 with pods := eraseA e.1 st1.pods } := by
  unfold reschedule_step
  rw [hr]

theorem reschedule_step_of_err {st st1 : ClusterState} {e : Nat × Pod}
    {res : ScheduleResult}
    (hr : schedule_pod e.2.cpu_requirement e.2.algorithm st = (res, st1))
    (hres : res.isOk = false) : reschedule_step st e = st1 := by
  unfold reschedule_step
  rw [hr]
  cases res with
  | ok p q => simp [ScheduleResult.isOk] at hres
  | noHealthyNodes => rfl
  | insufficientResources => rfl
  | failedToSchedule => rfl

theorem reschedule_step_spec (f : Nat) (nf : Node) (hstat : nf.status = .unhealthy)
    (st : ClusterState) (e : Nat × Pod) (hinv : RecoveryInv f nf st) :
    RecoveryInv f nf (reschedule_step st e) ∧
    (reschedule_step st e).nextId = st.nextId + 1 ∧
    (∀ pid, pid ≠ e.1 → pid < st.nextId →
      lookupA pid (reschedule_step st e).pods = lookupA pid st.pods) ∧
    (lookupA e.1 st.pods = some e.2 →
      (reschedule_step st e).pods = st.pods ∨
      (lookupA e.1 (reschedule_step st e).pods = none ∧
       ∃ nnid, nnid ≠ f ∧
         lookupA st.nextId (reschedule_step st e).pods
           = some ⟨e.2.cpu_requirement, nnid, e.2.algorithm⟩)) := by
  obtain ⟨hfv, hnodnd, hpodnd, hbnd⟩ := hinv
  rcases hr : schedule_pod e.2.cpu_requirement e.2.algorithm st with ⟨res, st1⟩
  have hmaster := schedule_pod_spec e.2.cpu_requirement e.2.algorithm st
  rw [hr] at hmaster
  dsimp only at hmaster
  rcases hmaster with ⟨hfail, hnodes, hpods, hhb, hid⟩ |
    ⟨nid, n, nd, hlook, hcpu, hmemE, hok, hnodes, hpods, hhb, hid⟩
  · have hstep := reschedule_step_of_err hr hfail
    rw [hstep]
    refine ⟨⟨?_, ?_, ?_, ?_⟩, hid, ?_, ?_⟩
    · rw [hnodes]
      exact hfv
    · rw [hnodes]
      exact hnodnd
    · rw [hpods]
      exact hpodnd
    · intro e2 he2
      rw [hpods] at he2
      rw [hid]
      exact Nat.lt_succ_of_lt (hbnd e2 he2)
    · intro pid _ _
      rw [hpods]
    · intro _
      left
      exact hpods
  · subst hok
    have hndlook : lookupA nid st.nodes = some nd :=
      lookupA_of_mem_nodup hnodnd (List.mem_of_mem_filter (List.mem_of_mem_filter hmemE))
    have hhealthy : nd.status = .healthy := by
      have h1 := List.of_mem_filter (List.mem_of_mem_filter hmemE)
      simpa using h1
    have hne : f ≠ nid := by
      intro hfe
      rw [← hfe] at hndlook
      rw [hfv] at hndlook
      injection hndlook with hx
      rw [hx, hhealthy] at hstat
      exact absurd hstat (by decide)
    have hstep := reschedule_step_of_ok hr
    rw [hstep]
    refine ⟨⟨?_, ?_, ?_, ?_⟩, hid, ?_, ?_⟩
    · show lookupA f st1.nodes = some nf
      rw [hnodes, lookupA_setA_ne hne]
      exact hfv
    · show (st1.nodes.map Prod.fst).Nodup
      rw [hnodes, keys_setA]
      exact hnodnd
    · show ((eraseA e.1 st1.pods).map Prod.fst).Nodup
      rw [hpods]
      exact keys_eraseA_nodup (keys_insertA_nodup hpodnd _ _)
    · intro e2 he2
      have he3 : e2 ∈ eraseA e.1 st1.pods := he2
      rw [hpods] at he3
      show e2.1 < st1.nextId
      rw [hid]
      rcases mem_insertA (mem_eraseA he3) with hm | rfl
      · exact Nat.lt_succ_of_lt (hbnd e2 hm)
      · exact Nat.lt_succ_self _
    · intro pid hpe hplt
      show lookupA pid (eraseA e.1 st1.pods) = lookupA pid st.pods
      rw [hpods, lookupA_eraseA_ne hpe, lookupA_insertA_ne (Nat.ne_of_lt hplt)]
    · intro he2
      right
      have helt : e.1 < st.nextId := hbnd (e.1, e.2) (mem_of_lookupA he2)
      constructor
      · show lookupA e.1 (eraseA e.1 st1.pods) = none
        rw [hpods]
        exact lookupA_eraseA_self (keys_insertA_nodup hpodnd _ _)
      · refine ⟨nid, Ne.symm hne, ?_⟩
        show lookupA st.nextId (eraseA e.1 st1.pods)
          = some ⟨e.2.cpu_requirement, nid, e.2.algorithm⟩
        rw [hpods, lookupA_eraseA_ne (Nat.ne_of_gt helt)]
        exact lookupA_insertA_self _ _ _

theorem reschedule_fold_spec (f : Nat) (nf : Node) (hstat : nf.status = .unhealthy)
    (base : Nat) :
    ∀ (todo : List (Nat × Pod)) (st : ClusterState),
      RecoveryInv f nf st → base ≤ st.nextId →
      (todo.map Prod.fst).Nodup →
      (∀ e ∈ todo, e.1 < base ∧ lookupA e.1 st.pods = some e.2) →
      RecoveryInv f nf (todo.foldl reschedule_step st) ∧
      st.nextId ≤ (todo.foldl reschedule_step st).nextId ∧
      (∀ pid, pid ∉ todo.map Prod.fst → pid < st.nextId →
        lookupA pid (todo.foldl reschedule_step st).pods = lookupA pid st.pods) ∧
      (∀ e ∈ todo,
        lookupA e.1 (todo.foldl reschedule_step st).pods = some e.2 ∨
        (lookupA e.1 (todo.foldl reschedule_step st).pods = none ∧
         ∃ npid nnid, base ≤ npid ∧ nnid ≠ f ∧
           lookupA npid (todo.foldl reschedule_step st).pods
             = some ⟨e.2.cpu_requirement, nnid, e.2.algorithm⟩)) := by
  intro todo
  induction todo with
  | nil =>
      intro st hinv hbase hnd hpre
      exact ⟨hinv, le_refl _, fun pid _ _ => rfl,
        fun e he => absurd he (List.not_mem_nil e)⟩
  | cons x xs ih =>
      intro st hinv hbase hnd hpre
      simp only [List.foldl_cons]
      obtain ⟨hinv1, hideq, hframe1, hout1⟩ := reschedule_step_spec f nf hstat st x hinv
      have hx := hpre x (List.mem_cons_self _ _)
      have hndx : x.1 ∉ xs.map Prod.fst := (List.nodup_cons.1 hnd).1
      have hndxs : (xs.map Prod.fst).Nodup := (List.nodup_cons.1 hnd).2
      have hpre2 : ∀ e ∈ xs, e.1 < base ∧
          lookupA e.1 (reschedule_step st x).pods = some e.2 := by
        intro e he
        have h1 := hpre e (List.mem_cons_of_mem _ he)
        have hkey : e.1 ∈ xs.map Prod.fst := List.mem_map.2 ⟨e, he, rfl⟩
        have hnex : e.1 ≠ x.1 := fun heq => hndx (heq ▸ hkey)
        refine ⟨h1.1, ?_⟩
        rw [hframe1 e.1 hnex (lt_of_lt_of_le h1.1 hbase)]
        exact h1.2
      have hbase2 : base ≤ (reschedule_step st x).nextId := by
        rw [hideq]
        omega
      obtain ⟨hinvF, hidF, hframeF, houtF⟩ :=
        ih (reschedule_step st x) hinv1 hbase2 hndxs hpre2
      refine ⟨hinvF, ?_, ?_, ?_⟩
      · calc st.nextId ≤ st.nextId + 1 := Nat.le_succ _
          _ = (reschedule_step st x).nextId := hideq.symm
          _ ≤ _ := hidF
      · intro pid hpid hlt
        simp only [List.map_cons, List.mem_cons] at hpid
        push_neg at hpid
        rw [hframeF pid hpid.2 (by rw [hideq]; omega), hframe1 pid hpid.1 hlt]
      · intro e he
        rcases List.mem_cons.1 he with rfl | hetail
        · have hlt1 : e.1 < (reschedule_step st e).nextId := by
            rw [hideq]
            exact Nat.lt_succ_of_lt (lt_of_lt_of_le hx.1 hbase)
          rcases hout1 hx.2 with hsame | ⟨hdel, nnid, hnnf, hnew⟩
          · left
            rw [hframeF e.1 hndx hlt1, hsame]
            exact hx.2
          · right
            have hnid_notin : st.nextId ∉ xs.map Prod.fst := by
              intro hmem
              rcases List.mem_map.1 hmem with ⟨e2, he2, heq⟩
              have h3 := (hpre e2 (List.mem_cons_of_mem _ he2)).1
              omega
            refine ⟨?_, st.nextId, nnid, hbase, hnnf, ?_⟩
            · rw [hframeF e.1 hndx hlt1]
              exact hdel
            · rw [hframeF st.nextId hnid_notin (by rw [hideq]; omega)]
              exact hnew
        · exact houtF e hetail

/-- C3 (amended): for every pod assigned to a failed (unhealthy) node,
the Recovery Coordinator either leaves its record untouched (when
rescheduling fails) or deletes the old record and creates a new record
with a fresh PodId on the new (non-failed) node — but in no case is the
old pod's requirement credited back to the source node, whose record is
left entirely unchanged (its `available_cores` stays decremented and
its pod list still contains the old pod ids). -/
theorem c3_reschedule_no_release (s : ClusterState) (f : Nat) (nf : Node)
    (hnodK : (s.nodes.map Prod.fst).Nodup)
    (hpodK : (s.pods.map Prod.fst).Nodup)
    (hbound : ∀ e ∈ s.pods, e.1 < s.nextId)
    (hf : lookupA f s.nodes = some nf)
    (hstat : nf.status = .unhealthy) :
    lookupA f (reschedule_pods_from_node f s).2.nodes = some nf ∧
    (∀ pid info, lookupA pid s.pods = some info → info.node_id = f →
      lookupA pid (reschedule_pods_from_node f s).2.pods = some info ∨
      (lookupA pid (reschedule_pods_from_node f s).2.pods = none ∧
       ∃ npid nnid, s.nextId ≤ npid ∧ nnid ≠ f ∧
         lookupA npid (reschedule_pods_from_node f s).2.pods
           = some ⟨info.cpu_requirement, nnid, info.algorithm⟩)) := by
  have hcon : containsA f s.nodes = true := by simp [containsA, hf]
  have hfold : (reschedule_pods_from_node f s).2
      = (s.pods.filter (fun e => decide (e.2.node_id = f))).foldl reschedule_step s := by
    simp only [reschedule_pods_from_node]
    rw [if_pos hcon]
    rfl
  rw [hfold]
  have hndtodo : (((s.pods.filter (fun e => decide (e.2.node_id = f))).map
      Prod.fst)).Nodup :=
    List.Nodup.sublist ((List.filter_sublist s.pods).map Prod.fst) hpodK
  have hpre : ∀ e ∈ s.pods.filter (fun e => decide (e.2.node_id = f)),
      e.1 < s.nextId ∧ lookupA e.1 s.pods = some e.2 := by
    intro e he
    have hmem : e ∈ s.pods := List.mem_of_mem_filter he
    obtain ⟨p, q⟩ := e
    exact ⟨hbound (p, q) hmem, lookupA_of_mem_nodup hpodK hmem⟩
  obtain ⟨hinvF, _, _, houtF⟩ := reschedule_fold_spec f nf hstat s.nextId
    (s.pods.filter (fun e => decide (e.2.node_id = f))) s
    ⟨hf, hnodK, hpodK, hbound⟩ (le_refl _) hndtodo hpre
  refine ⟨hinvF.1, ?_⟩
  intro pid info hlook hnode
  have hmem : (pid, info) ∈ s.pods.filter (fun e => decide (e.2.node_id = f)) :=
    List.mem_filter.2 ⟨mem_of_lookupA hlook, by simp [hnode]⟩
  exact houtF (pid, info) hmem

/-- C3 witness: the amended statement instantiated on `s_c3` — the
failed node 0's record is unchanged, and its pod 1 is deleted with a
fresh record created on a node other than 0. -/
theorem c3_reschedule_no_release_witness :
    lookupA 0 (reschedule_pods_from_node 0 s_c3).2.nodes
      = some ⟨2, 1, .unhealthy, [1], "simulation-mode"⟩ ∧
    (lookupA 1 (reschedule_pods_from_node 0 s_c3).2.pods = some ⟨1, 0, .firstFit⟩ ∨
      (lookupA 1 (reschedule_pods_from_node 0 s_c3).2.pods = none ∧
       ∃ npid nnid, s_c3.nextId ≤ npid ∧ nnid ≠ 0 ∧
         lookupA npid (reschedule_pods_from_node 0 s_c3).2.pods
           = some ⟨1, nnid, .firstFit⟩)) :=
  ⟨(c3_reschedule_no_release s_c3 0 ⟨2, 1, .unhealthy, [1], "simulation-mode"⟩
      (by decide) (by decide) (by decide) rfl rfl).1,
   (c3_reschedule_no_release s_c3 0 ⟨2, 1, .unhealthy, [1], "simulation-mode"⟩
      (by decide) (by decide) (by decide) rfl rfl).2 1 ⟨1, 0, .firstFit⟩ rfl rfl⟩

/-- C3 counterexample: after the successful reschedule from node 0 of
`s_c3`, the source node's `available_cores` is still 1 (the claim
demands the 1-core requirement credited back, i.e. 2) and its pod list
still contains the old pod id 1 (the claim demands it removed); only
the record deletion happened. -/
theorem c3_counterexample :
    (lookupA 0 (reschedule_pods_from_node 0 s_c3).2.nodes).map Node.available_cores
      = some 1 ∧
    (lookupA 0 (reschedule_pods_from_node 0 s_c3).2.nodes).map Node.pods = some [1] ∧
    lookupA 1 (reschedule_pods_from_node 0 s_c3).2.pods = none := by
  refine ⟨?_, ?_, ?_⟩ <;> decide

end Cluster
